import Mathlib

/-!
Shallow embedding of the rss-digest-agent pipeline (src/main.py) and proofs
about its specification claims.

External collaborators (the feedparser library, the Groq completion oracle,
the network scraper, SMTP delivery, environment variables and the wall
clock) are modelled as explicit inputs.  The Groq oracle is modelled at the
narrow parsing boundary: for each batch the model receives either the
parsed JSON value (the relevance and sentiment passes parse a JSON array,
the summarization pass splits on positional markers) or the marker that
the call raised or its text did not parse, which main.py treats
identically (the whole call-and-parse block sits in one try/except).
Timestamps are abstract integers; Python truncation s[:n] is String.take.
-/

namespace RssDigest

/-- One feed item as built by fetch_articles (a Python dict in the source).
Keys that later stages may add (relevance_score, scraped, bullets,
sentiment) are Options/flags defaulting to the absent state. -/
structure Article where
  title : String
  link : String
  summary : String
  published : String
  source : String
  relevance_score : Option Int := none
  scraped : Bool := false
  bullets : Option String := none
  sentiment : Option String := none
deriving DecidableEq, Repr

/-- Placeholder used for list indexing defaults; every indexed access in the
development is within bounds, so it is never actually produced. -/
def defaultArticle : Article :=
  { title := "", link := "", summary := "", published := "", source := "" }

/-- One element of the JSON array parsed in filter_relevant_articles
(src/main.py line 216): a JSON object whose fields may be absent.
result.get("id", 0), result.get("score", 0) and result.get("relevant")
are the corresponding Option defaults in the model. -/
structure RelResult where
  id : Option Int := none
  score : Option Int := none
  relevant : Option Bool := none
deriving DecidableEq, Repr

/-- Batching discipline shared by all three passes: articles[i:i+5] for
i in range(0, len(articles), 5) (src/main.py lines 186-189).  Spelled out
by explicit patterns so that it is structurally recursive. -/
def chunks5 : List Article → List (List Article)
  | [] => []
  | [a] => [[a]]
  | [a, b] => [[a, b]]
  | [a, b, c] => [[a, b, c]]
  | [a, b, c, d] => [[a, b, c, d]]
  | a :: b :: c :: d :: e :: rest => [a, b, c, d, e] :: chunks5 rest

theorem chunks5_flatten : ∀ l, (chunks5 l).flatten = l
  | [] => rfl
  | [_] => rfl
  | [_, _] => rfl
  | [_, _, _] => rfl
  | [_, _, _, _] => rfl
  | a :: b :: c :: d :: e :: rest => by
      simp [chunks5, chunks5_flatten rest]

/-- The admission test of src/main.py line 219:
idx = result.get("id", 0) - 1;
0 <= idx < len(batch) and result.get("relevant") and result.get("score", 0) >= 7. -/
def admitsRel (batchLen : Nat) (r : RelResult) : Bool :=
  let idx : Int := r.id.getD 0 - 1
  decide (0 ≤ idx) && decide (idx < (batchLen : Int)) &&
    r.relevant.getD false && decide (7 ≤ r.score.getD 0)

/-- One step of the result loop of src/main.py lines 217-221: state is the
batch (whose admitted members get relevance_score set, modelling the
in-place dict mutation) together with the list of admitted 0-based
positions so far. -/
def relStep (st : List Article × List Nat) (r : RelResult) :
    List Article × List Nat :=
  if admitsRel st.1.length r then
    let j := (r.id.getD 0 - 1).toNat
    (st.1.set j { st.1.getD j defaultArticle with relevance_score := r.score },
      st.2 ++ [j])
  else st

/-- Processing the parsed results of one batch (src/main.py lines 217-221),
in result order and with duplicate admissions kept, exactly as
relevant.append(batch[idx]) appends references. -/
def processBatch (batch : List Article) (results : List RelResult) :
    List Article × List Nat :=
  results.foldl relStep (batch, [])

/-- One batch of the relevance pass: a response of none models the oracle
call raising or its text not containing a parseable JSON array
(src/main.py lines 206-223, the except branch and the failed regex match),
in which case nothing is admitted and the batch is left untouched. -/
def processedBatch (oracle : Nat → Option (List RelResult)) (i : Nat)
    (batch : List Article) : List Article × List Nat :=
  match oracle i with
  | some rs => processBatch batch rs
  | none => (batch, [])

/-- The input article list after the relevance pass's in-place mutations
(relevance_score assignments), batch by batch. -/
def poolAfterRel (oracle : Nat → Option (List RelResult))
    (articles : List Article) : List Article :=
  ((chunks5 articles).enum.map (fun p => (processedBatch oracle p.1 p.2).1)).flatten

/-- The articles admitted by the relevance pass over all batches, in
admission order, before sorting and truncation: each admitted position is
read back from the mutated batch, so duplicate admissions of one position
share the final score as the aliased Python dicts do. -/
def relevantUnsorted (oracle : Nat → Option (List RelResult))
    (articles : List Article) : List Article :=
  ((chunks5 articles).enum.map
    (fun p =>
      let q := processedBatch oracle p.1 p.2
      q.2.map (fun j => q.1.getD j defaultArticle))).flatten

/-- Sort key of src/main.py line 227: x.get("relevance_score", 0). -/
def relScore (a : Article) : Int := a.relevance_score.getD 0

/-- Stable descending insertion: the inserted element goes before the first
element whose score is at most its own, so among equal scores earlier
(original-order) elements stay first. -/
def insertDesc (a : Article) : List Article → List Article
  | [] => [a]
  | b :: rest =>
      if relScore b ≤ relScore a then a :: b :: rest else b :: insertDesc a rest

/-- relevant.sort(key=..., reverse=True) of src/main.py line 227: Python's
sort is stable and reverse=True keeps equal elements in original order, so
it is extensionally any stable descending sort; insertion sort here. -/
def sortByScoreDesc (l : List Article) : List Article :=
  l.foldr insertDesc []

/-- filter_relevant_articles (src/main.py lines 179-228).  Returns the
mutated input list (Python mutates the shared article dicts in place)
together with the returned relevant list.  The topics argument only shapes
the prompt sent to the oracle, which the model receives as an input, so it
is unused here as in any fixed-oracle run. -/
def filter_relevant_articles (oracle : Nat → Option (List RelResult))
    (articles : List Article) (topics : List String) :
    List Article × List Article :=
  if articles.isEmpty then (articles, [])
  else
    (poolAfterRel oracle articles,
      (sortByScoreDesc (relevantUnsorted oracle articles)).take 12)

/-- The articles a single batch contributes to the relevance pass output
(before sorting/truncation): empty when the batch's response erred. -/
def batchRelContribution (oracle : Nat → Option (List RelResult))
    (articles : List Article) (i : Nat) : List Article :=
  match (chunks5 articles)[i]? with
  | none => []
  | some b =>
      let q := processedBatch oracle i b
      q.2.map (fun j => q.1.getD j defaultArticle)

/-- Length of batch i, as seen by the admission test of that batch. -/
def batchLenAt (articles : List Article) (i : Nat) : Nat :=
  (((chunks5 articles)[i]?).getD []).length

/-- The score-and-flag half of the admission test of src/main.py line 219. -/
def qualRel (r : RelResult) : Bool :=
  r.relevant.getD false && decide (7 ≤ r.score.getD 0)

/-- The id-in-range half of the admission test of src/main.py line 219:
0 <= id - 1 < len(batch). -/
def inRangeRes (len : Nat) (r : RelResult) : Bool :=
  decide (1 ≤ r.id.getD 0) && decide (r.id.getD 0 ≤ (len : Int))

theorem relStep_fst_length (st : List Article × List Nat) (r : RelResult) :
    (relStep st r).1.length = st.1.length := by
  unfold relStep
  split
  · simp
  · rfl

theorem qual_of_admitsRel (len : Nat) (r : RelResult)
    (h : admitsRel len r = true) : qualRel r = true := by
  unfold admitsRel at h
  simp only [Bool.and_eq_true, decide_eq_true_eq] at h
  unfold qualRel
  simp only [Bool.and_eq_true, decide_eq_true_eq]
  exact ⟨h.1.2, h.2⟩

theorem inRange_of_admitsRel (len : Nat) (r : RelResult)
    (h : admitsRel len r = true) : inRangeRes len r = true := by
  unfold admitsRel at h
  simp only [Bool.and_eq_true, decide_eq_true_eq] at h
  obtain ⟨⟨⟨h1, h2⟩, _⟩, _⟩ := h
  unfold inRangeRes
  simp only [Bool.and_eq_true, decide_eq_true_eq]
  omega

theorem admitsRel_false_of_not_qual (len : Nat) (r : RelResult)
    (h : qualRel r = false) : admitsRel len r = false := by
  cases ha : admitsRel len r
  · rfl
  · rw [qual_of_admitsRel len r ha] at h
    cases h

theorem admitsRel_false_of_not_inRange (len : Nat) (r : RelResult)
    (h : inRangeRes len r = false) : admitsRel len r = false := by
  cases ha : admitsRel len r
  · rfl
  · rw [inRange_of_admitsRel len r ha] at h
    cases h

theorem foldl_relStep_filter (q : RelResult → Bool) (n : Nat)
    (h : ∀ r, q r = false → admitsRel n r = false) :
    ∀ (rs : List RelResult) (st : List Article × List Nat), st.1.length = n →
      (rs.filter q).foldl relStep st = rs.foldl relStep st
  | [], _, _ => rfl
  | r :: rs, st, hst => by
      by_cases hq : q r = true
      · rw [List.filter_cons_of_pos hq, List.foldl_cons, List.foldl_cons,
          foldl_relStep_filter q n h rs _ (by rw [relStep_fst_length, hst])]
      · have hq' : q r = false := by simpa using hq
        have hstep : relStep st r = st := by
          unfold relStep
          rw [hst, h r hq']
          rfl
        rw [List.filter_cons_of_neg (by simp [hq']), List.foldl_cons, hstep,
          foldl_relStep_filter q n h rs st hst]

theorem processedBatch_filter_qual (oracle : Nat → Option (List RelResult))
    (i : Nat) (b : List Article) :
    processedBatch (fun j => (oracle j).map (List.filter qualRel)) i b =
      processedBatch oracle i b := by
  unfold processedBatch
  cases h : oracle i
  · simp [h]
  · simp only [h, Option.map_some]
    exact foldl_relStep_filter qualRel b.length
      (fun r hr => admitsRel_false_of_not_qual b.length r hr) _ (b, []) rfl

theorem processedBatch_err_like_empty (oracle : Nat → Option (List RelResult))
    (i : Nat) (b : List Article) :
    processedBatch (fun j => some ((oracle j).getD [])) i b =
      processedBatch oracle i b := by
  unfold processedBatch
  cases h : oracle i <;> simp [h, processBatch]

theorem processedBatch_filter_inRange (oracle : Nat → Option (List RelResult))
    (articles : List Article) (i : Nat) (b : List Article)
    (hb : (chunks5 articles)[i]? = some b) :
    processedBatch
        (fun j => (oracle j).map (List.filter (fun r => inRangeRes (batchLenAt articles j) r)))
        i b =
      processedBatch oracle i b := by
  have hlen : batchLenAt articles i = b.length := by
    unfold batchLenAt
    rw [hb]
    rfl
  unfold processedBatch
  cases h : oracle i
  · simp [h]
  · simp only [h, Option.map_some]
    refine foldl_relStep_filter _ b.length ?_ _ (b, []) rfl
    intro r hr
    rw [hlen] at hr
    exact admitsRel_false_of_not_inRange b.length r hr

theorem batchRelContribution_of_err (oracle : Nat → Option (List RelResult))
    (articles : List Article) (i : Nat) (h : oracle i = none) :
    batchRelContribution oracle articles i = [] := by
  unfold batchRelContribution
  cases hg : (chunks5 articles)[i]?
  · rfl
  · simp [processedBatch, h]

theorem relevantUnsorted_eq_contributions (oracle : Nat → Option (List RelResult))
    (articles : List Article) :
    relevantUnsorted oracle articles =
      ((chunks5 articles).enum.map
        (fun p => batchRelContribution oracle articles p.1)).flatten := by
  unfold relevantUnsorted
  congr 1
  refine List.map_congr_left ?_
  intro p hp
  have hg : (chunks5 articles)[p.1]? = some p.2 :=
    List.mem_enum_iff_getElem?.mp hp
  unfold batchRelContribution
  rw [hg]

/-- A concrete fresh article, as fetch_articles would build it. -/
def artAlpha : Article :=
  { title := "Alpha", link := "https://example.com/a",
    summary := "alpha summary", published := "2026-02-18", source := "Feed" }

/-- A second concrete article with a distinct url. -/
def artBeta : Article :=
  { title := "Beta", link := "https://example.com/b",
    summary := "beta summary", published := "2026-02-18", source := "Feed" }

/-- C1: in the relevance pass an item is admitted to the output only if its
result has relevant == true and score >= 7; either condition failing alone
excludes it.  First conjunct: dropping every result that fails the
conjunction from every parsed batch response leaves the pass's behaviour
(both the mutated pool and the output) unchanged, so only such results
admit items.  Second conjunct: the admission test demands relevant == true
and score >= 7.  Third conjunct: an item marked relevant=true with score=6
is excluded (the pass returns no items). -/
theorem relevance_admits_only_flagged_and_scored :
    (∀ (oracle : Nat → Option (List RelResult)) (articles : List Article)
        (topics : List String),
      filter_relevant_articles (fun j => (oracle j).map (List.filter qualRel))
          articles topics =
        filter_relevant_articles oracle articles topics)
    ∧ (∀ (len : Nat) (r : RelResult), admitsRel len r = true →
        r.relevant = some true ∧ 7 ≤ r.score.getD 0)
    ∧ (filter_relevant_articles
        (fun _ => some [{ id := some 1, score := some 6, relevant := some true }])
        [artAlpha] ["ai"]).2 = [] := by
  refine ⟨?_, ?_, ?_⟩
  · intro oracle articles topics
    unfold filter_relevant_articles poolAfterRel relevantUnsorted
    simp only [processedBatch_filter_qual]
  · intro len r h
    have hq := qual_of_admitsRel len r h
    unfold qualRel at hq
    simp only [Bool.and_eq_true, decide_eq_true_eq] at hq
    refine ⟨?_, hq.2⟩
    cases hrel : r.relevant with
    | none => rw [hrel] at hq; simp at hq
    | some b => rw [hrel] at hq; simp at hq; rw [hq.1]
  · decide

/-- C1 witness: the admission test is satisfiable, e.g. by id=1, score=9,
relevant=true on a batch of one. -/
theorem relevance_admits_only_flagged_and_scored_witness :
    ({ id := some 1, score := some 9, relevant := some true } : RelResult).relevant
        = some true ∧
      7 ≤ ({ id := some 1, score := some 9, relevant := some true } : RelResult).score.getD 0 :=
  relevance_admits_only_flagged_and_scored.2.1 1
    { id := some 1, score := some 9, relevant := some true } (by decide)

/-- C2: a batch whose oracle call raises or whose text does not parse as a
JSON array (response none) admits zero items and does not propagate an
error.  First conjunct: replacing each failed response by a successfully
parsed empty array changes nothing, i.e. failure is handled and fail-closed.
Second conjunct: a failed batch contributes no articles to the pass output.
Third conjunct ties contributions to the pre-sort admitted list. -/
theorem relevance_failed_batches_admit_nothing :
    (∀ (oracle : Nat → Option (List RelResult)) (articles : List Article)
        (topics : List String),
      filter_relevant_articles (fun j => some ((oracle j).getD []))
          articles topics =
        filter_relevant_articles oracle articles topics)
    ∧ (∀ (oracle : Nat → Option (List RelResult)) (articles : List Article)
        (i : Nat), oracle i = none →
        batchRelContribution oracle articles i = [])
    ∧ (∀ (oracle : Nat → Option (List RelResult)) (articles : List Article),
        relevantUnsorted oracle articles =
          ((chunks5 articles).enum.map
            (fun p => batchRelContribution oracle articles p.1)).flatten) := by
  refine ⟨?_, batchRelContribution_of_err, relevantUnsorted_eq_contributions⟩
  intro oracle articles topics
  unfold filter_relevant_articles poolAfterRel relevantUnsorted
  simp only [processedBatch_err_like_empty]

/-- C2 witness: with a single one-article batch whose call fails, the batch
contributes nothing and the pass output is empty. -/
theorem relevance_failed_batches_admit_nothing_witness :
    batchRelContribution (fun _ => none) [artAlpha] 0 = [] ∧
      (filter_relevant_articles (fun _ => none) [artAlpha] ["ai"]).2 = [] := by
  constructor
  · exact relevance_failed_batches_admit_nothing.2.1 (fun _ => none) [artAlpha] 0 rfl
  · decide

/-- C10: a parsed result whose id is absent or out of the range
1..len(batch) admits no item and causes no error; only in-range ids admit,
each the item at its 1-based position.  First conjunct: dropping every
out-of-range result from every parsed response leaves the pass unchanged.
Second conjunct: results with id absent, id=0 and id=2 on a batch of one
admit nothing.  Third conjunct: id=2 on a two-article batch admits exactly
the second article, annotated with its score. -/
theorem relevance_ignores_out_of_range_ids :
    (∀ (oracle : Nat → Option (List RelResult)) (articles : List Article)
        (topics : List String),
      filter_relevant_articles
          (fun j => (oracle j).map
            (List.filter (fun r => inRangeRes (batchLenAt articles j) r)))
          articles topics =
        filter_relevant_articles oracle articles topics)
    ∧ filter_relevant_articles
        (fun _ => some [{ id := none, score := some 9, relevant := some true },
          { id := some 0, score := some 9, relevant := some true },
          { id := some 2, score := some 9, relevant := some true }])
        [artAlpha] ["ai"] = ([artAlpha], [])
    ∧ filter_relevant_articles
        (fun _ => some [{ id := some 2, score := some 9, relevant := some true }])
        [artAlpha, artBeta] ["ai"] =
      ([artAlpha, { artBeta with relevance_score := some 9 }],
        [{ artBeta with relevance_score := some 9 }]) := by
  refine ⟨?_, by decide, by decide⟩
  intro oracle articles topics
  have hpool : poolAfterRel
      (fun j => (oracle j).map
        (List.filter (fun r => inRangeRes (batchLenAt articles j) r))) articles =
      poolAfterRel oracle articles := by
    unfold poolAfterRel
    congr 1
    refine List.map_congr_left ?_
    intro p hp
    rw [processedBatch_filter_inRange oracle articles p.1 p.2
      (List.mem_enum_iff_getElem?.mp hp)]
  have hrel : relevantUnsorted
      (fun j => (oracle j).map
        (List.filter (fun r => inRangeRes (batchLenAt articles j) r))) articles =
      relevantUnsorted oracle articles := by
    unfold relevantUnsorted
    congr 1
    refine List.map_congr_left ?_
    intro p hp
    rw [processedBatch_filter_inRange oracle articles p.1 p.2
      (List.mem_enum_iff_getElem?.mp hp)]
  unfold filter_relevant_articles
  rw [hpool, hrel]

theorem mem_insertDesc {x a : Article} : ∀ {l : List Article},
    x ∈ insertDesc a l → x = a ∨ x ∈ l
  | [], h => by simpa [insertDesc] using h
  | b :: rest, h => by
      unfold insertDesc at h
      by_cases hc : relScore b ≤ relScore a
      · rw [if_pos hc] at h
        rcases List.mem_cons.mp h with h | h
        · exact Or.inl h
        · exact Or.inr h
      · rw [if_neg hc] at h
        rcases List.mem_cons.mp h with h | h
        · exact Or.inr (by simp [h])
        · rcases mem_insertDesc h with h | h
          · exact Or.inl h
          · exact Or.inr (List.mem_cons_of_mem b h)

theorem pairwise_insertDesc (a : Article) : ∀ (l : List Article),
    l.Pairwise (fun x y => relScore y ≤ relScore x) →
    (insertDesc a l).Pairwise (fun x y => relScore y ≤ relScore x) := by
  intro l
  induction l with
  | nil => intro _; simp [insertDesc]
  | cons b rest ih =>
      intro h
      rw [List.pairwise_cons] at h
      unfold insertDesc
      split
      · rename_i hba
        refine List.pairwise_cons.mpr ⟨?_, List.pairwise_cons.mpr h⟩
        intro x hx
        rcases List.mem_cons.mp hx with hx | hx
        · rw [hx]; exact hba
        · exact le_trans (h.1 x hx) hba
      · rename_i hba
        push_neg at hba
        refine List.pairwise_cons.mpr ⟨?_, ih h.2⟩
        intro x hx
        rcases mem_insertDesc hx with hx | hx
        · rw [hx]; exact le_of_lt hba
        · exact h.1 x hx

theorem sorted_sortByScoreDesc (l : List Article) :
    (sortByScoreDesc l).Pairwise (fun x y => relScore y ≤ relScore x) := by
  induction l with
  | nil => simp [sortByScoreDesc]
  | cons a rest ih => exact pairwise_insertDesc a _ ih

theorem filter_insertDesc (s : Int) (a : Article) : ∀ (l : List Article),
    (insertDesc a l).filter (fun x => decide (relScore x = s)) =
      if relScore a = s then a :: l.filter (fun x => decide (relScore x = s))
      else l.filter (fun x => decide (relScore x = s)) := by
  intro l
  induction l with
  | nil =>
      by_cases hpa : relScore a = s <;> simp [insertDesc, hpa]
  | cons b rest ih =>
      unfold insertDesc
      split
      · by_cases hpa : relScore a = s <;> simp [hpa, List.filter_cons]
      · rename_i hba
        push_neg at hba
        by_cases hpa : relScore a = s
        · have hpb : ¬ (relScore b = s) := by omega
          simp [List.filter_cons, hpa, hpb, ih]
        · simp [List.filter_cons, hpa, ih]

theorem filter_sortByScoreDesc (s : Int) : ∀ (l : List Article),
    (sortByScoreDesc l).filter (fun x => decide (relScore x = s)) =
      l.filter (fun x => decide (relScore x = s)) := by
  intro l
  induction l with
  | nil => rfl
  | cons a rest ih =>
      show (insertDesc a (sortByScoreDesc rest)).filter _ = _
      rw [filter_insertDesc s a (sortByScoreDesc rest), List.filter_cons]
      by_cases hpa : relScore a = s <;> simp [hpa, ih]

/-- C3: the relevance pass output is sorted by relevanceScore descending,
is stable on ties (for every score s, the output's items of score s are a
sublist, hence in the original relative order, of the pre-sort admitted
list), and has at most 12 items. -/
theorem relevance_output_sorted_capped_stable
    (oracle : Nat → Option (List RelResult)) (articles : List Article)
    (topics : List String) :
    ((filter_relevant_articles oracle articles topics).2).Pairwise
        (fun x y => relScore y ≤ relScore x)
    ∧ (filter_relevant_articles oracle articles topics).2.length ≤ 12
    ∧ ∀ s : Int,
        ((filter_relevant_articles oracle articles topics).2.filter
            (fun x => decide (relScore x = s))).Sublist
          ((relevantUnsorted oracle articles).filter
            (fun x => decide (relScore x = s))) := by
  unfold filter_relevant_articles
  by_cases he : articles.isEmpty
  · simp [he, List.nil_sublist]
  · simp only [he, if_false]
    refine ⟨?_, ?_, ?_⟩
    · exact List.Pairwise.sublist (List.take_sublist 12 _)
        (sorted_sortByScoreDesc _)
    · exact List.length_take_le 12 _
    · intro s
      have h1 : ((sortByScoreDesc (relevantUnsorted oracle articles)).take 12).Sublist
          (sortByScoreDesc (relevantUnsorted oracle articles)) :=
        List.take_sublist 12 _
      have h2 := h1.filter (fun x => decide (relScore x = s))
      rwa [filter_sortByScoreDesc s] at h2

/-! ## Ingestor: fetch_articles (src/main.py lines 148-176) -/

/-- One raw feed entry as the feed-reader collaborator hands it over.
Absent dict keys are none.  published abstracts the whole
published_parsed-to-datetime step of src/main.py lines 157-162: it is some
timestamp exactly when the attribute exists, is truthy and
datetime(*entry.published_parsed[:6]) does not raise, and none otherwise
(missing or unparseable date). -/
structure Entry where
  etitle : Option String := none
  elink : Option String := none
  esummary : Option String := none
  edescription : Option String := none
  published : Option Int := none
deriving DecidableEq, Repr

/-- A parsed feed: its own title (feed.feed.get("title", feed_url)) and its
entries.  A source that raises during retrieval is modelled as none at the
call site. -/
structure Feed where
  ftitle : Option String := none
  entries : List Entry := []
deriving DecidableEq, Repr

/-- Python strftime("%Y-%m-%d") on the abstract timestamp; the claims only
distinguish it from the "Unknown" sentinel. -/
def fmtDate (t : Int) : String := toString t

/-- Inclusion test of src/main.py line 165:
published is None or published >= cutoff.  There is no upper bound. -/
def includeEntry (cutoff : Int) (e : Entry) : Bool :=
  match e.published with
  | none => true
  | some t => decide (cutoff ≤ t)

/-- Article construction of src/main.py lines 166-172. -/
def mkArticle (feedUrl : String) (f : Feed) (e : Entry) : Article :=
  { title := e.etitle.getD "No title",
    link := e.elink.getD "",
    summary := (match e.esummary with
      | some s => s
      | none => e.edescription.getD "").take 500,
    published := match e.published with
      | some t => fmtDate t
      | none => "Unknown",
    source := f.ftitle.getD feedUrl }

/-- fetch_articles (src/main.py lines 148-176): each source is a pair of
its url and the retrieval outcome (none when feedparser.parse or the entry
loop raises, contributing zero items); cutoff = now - hours. -/
def fetch_articles (feeds : List (String × Option Feed)) (hours : Int)
    (now : Int) : List Article :=
  let cutoff := now - hours
  (feeds.map (fun p =>
    match p.2 with
    | none => []
    | some f => (f.entries.filter (includeEntry cutoff)).map
        (mkArticle p.1 f))).flatten

/-- The inclusion rule exactly as claim C6 words it: published unavailable
or within the closed window [now - lookbackHours, now].  Stated from the
claim's words only, to be compared against includeEntry from the source. -/
def claimC6Window (now hours : Int) (e : Entry) : Bool :=
  match e.published with
  | none => true
  | some t => decide (now - hours ≤ t) && decide (t ≤ now)

/-- A concrete future-dated entry: published 5 abstract time units after
now = 100. -/
def entryFuture : Entry :=
  { etitle := some "Future", elink := some "https://example.com/future",
    esummary := some "s", published := some 105 }

/-- A concrete feed carrying only the future-dated entry. -/
def feedFuture : Feed := { ftitle := some "F", entries := [entryFuture] }

/-- C6 counterexample: with now = 100 and lookbackHours = 24, the entry
dated 105 lies outside the claim's window [76, 100], yet fetch_articles
includes it — the code (src/main.py line 165) checks only
published >= cutoff and has no upper bound, so the claimed equivalence
fails at this input. -/
theorem fetch_includes_future_dated_entry :
    fetch_articles [("https://feed", some feedFuture)] 24 100 =
      [mkArticle "https://feed" feedFuture entryFuture]
    ∧ claimC6Window 100 24 entryFuture = false := by
  constructor
  · rfl
  · rfl

/-- C6 amended: an entry of a successfully retrieved feed is included iff
its published timestamp is unavailable/unparseable or is at least
now - lookbackHours (a lower bound only — future-dated entries are also
included); entries with unavailable dates are always included and labeled
with the "Unknown" sentinel. -/
theorem fetch_inclusion_rule (url : String) (f : Feed) (hours now : Int) :
    fetch_articles [(url, some f)] hours now =
      (f.entries.filter (includeEntry (now - hours))).map (mkArticle url f)
    ∧ (∀ e : Entry, e.published = none →
        includeEntry (now - hours) e = true ∧
          (mkArticle url f e).published = "Unknown")
    ∧ (∀ (e : Entry) (t : Int), e.published = some t →
        (includeEntry (now - hours) e = true ↔ now - hours ≤ t)) := by
  refine ⟨by simp [fetch_articles], ?_, ?_⟩
  · intro e he
    constructor
    · unfold includeEntry
      rw [he]
    · unfold mkArticle
      rw [he]
  · intro e t ht
    unfold includeEntry
    rw [ht]
    simp

/-- C6 amended witness: an undated entry is included and labeled Unknown,
and a dated entry at the cutoff boundary is included. -/
theorem fetch_inclusion_rule_witness :
    (includeEntry (100 - 24) { published := none } = true ∧
      (mkArticle "https://feed" { ftitle := some "F" }
        { published := none }).published = "Unknown")
    ∧ (includeEntry (100 - 24) { published := some 76 } = true ↔
        (100 : Int) - 24 ≤ 76) := by
  constructor
  · exact (fetch_inclusion_rule "https://feed" { ftitle := some "F" } 24 100).2.1
      { published := none } rfl
  · exact (fetch_inclusion_rule "https://feed" { ftitle := some "F" } 24 100).2.2
      { published := some 76 } 76 rfl

/-! ## Ingestion-time deduplication (src/main.py line 418):
articles = list({a["link"]: a for a in articles}.values()).
A Python dict comprehension keeps each key at its first-insertion position
but overwrites the value on re-insertion, so the kept representative for a
duplicated url is the last occurrence, placed at the first occurrence's
position. -/

/-- Insert-or-overwrite into the insertion-ordered association (keyed by
link), keeping the position of an existing key. -/
def updAssoc : List Article → Article → List Article
  | [], a => [a]
  | b :: rest, a =>
      if b.link = a.link then a :: rest else b :: updAssoc rest a

/-- The dict-comprehension deduplication of src/main.py line 418. -/
def dedupeByLink (l : List Article) : List Article :=
  l.foldl updAssoc []

/-- First-occurrence order of a key list (the order of dict keys). -/
def firstOccOrder : List String → List String :=
  List.foldl (fun acc u => if u ∈ acc then acc else acc ++ [u]) []

theorem updAssoc_links (m : List Article) (a : Article) :
    (updAssoc m a).map Article.link =
      if a.link ∈ m.map Article.link then m.map Article.link
      else m.map Article.link ++ [a.link] := by
  induction m with
  | nil => simp [updAssoc]
  | cons b rest ih =>
      unfold updAssoc
      by_cases hb : b.link = a.link
      · simp [hb]
      · rw [if_neg hb]
        simp only [List.map_cons, ih]
        have : (a.link ∈ b.link :: rest.map Article.link) ↔
            (a.link ∈ rest.map Article.link) := by
          rw [List.mem_cons]
          constructor
          · rintro (h | h)
            · exact absurd h.symm hb
            · exact h
          · exact Or.inr
        by_cases hm : a.link ∈ rest.map Article.link
        · simp [hm, this]
        · simp only [this, hm, if_neg, if_false]
          simp

theorem updAssoc_pairwise (m : List Article) (a : Article)
    (h : m.Pairwise (fun x y => x.link ≠ y.link)) :
    (updAssoc m a).Pairwise (fun x y => x.link ≠ y.link) := by
  induction m with
  | nil => simp [updAssoc]
  | cons b rest ih =>
      rw [List.pairwise_cons] at h
      unfold updAssoc
      by_cases hb : b.link = a.link
      · rw [if_pos hb]
        refine List.pairwise_cons.mpr ⟨?_, h.2⟩
        intro x hx
        rw [← hb]
        exact h.1 x hx
      · rw [if_neg hb]
        refine List.pairwise_cons.mpr ⟨?_, ih h.2⟩
        intro x hx
        have hx' := List.mem_map_of_mem Article.link hx
        rw [updAssoc_links] at hx'
        by_cases hm : a.link ∈ rest.map Article.link
        · rw [if_pos hm] at hx'
          rcases List.mem_map.mp hx' with ⟨y, hy, hyl⟩
          rw [← hyl]
          exact h.1 y hy
        · rw [if_neg hm] at hx'
          rcases List.mem_append.mp hx' with hx' | hx'
          · rcases List.mem_map.mp hx' with ⟨y, hy, hyl⟩
            rw [← hyl]
            exact h.1 y hy
          · intro hcon
            rw [List.mem_singleton.mp hx'] at hcon
            exact hb hcon

theorem mem_updAssoc {x a : Article} : ∀ {m : List Article},
    m.Pairwise (fun p q => p.link ≠ q.link) →
    x ∈ updAssoc m a → x = a ∨ (x ∈ m ∧ x.link ≠ a.link)
  | [], _, h => by simpa [updAssoc] using h
  | b :: rest, hm, h => by
      rw [List.pairwise_cons] at hm
      unfold updAssoc at h
      by_cases hb : b.link = a.link
      · rw [if_pos hb] at h
        rcases List.mem_cons.mp h with h | h
        · exact Or.inl h
        · refine Or.inr ⟨List.mem_cons_of_mem b h, ?_⟩
          rw [← hb]
          exact fun hc => (hm.1 x h) hc.symm
      · rw [if_neg hb] at h
        rcases List.mem_cons.mp h with h | h
        · refine Or.inr ⟨by simp [h], ?_⟩
          rw [h]
          exact hb
        · rcases mem_updAssoc hm.2 h with h | h
          · exact Or.inl h
          · exact Or.inr ⟨List.mem_cons_of_mem b h.1, h.2⟩

theorem dedupeByLink_append (l : List Article) (a : Article) :
    dedupeByLink (l ++ [a]) = updAssoc (dedupeByLink l) a := by
  unfold dedupeByLink
  rw [List.foldl_append]
  rfl

theorem dedupeByLink_pairwise (l : List Article) :
    (dedupeByLink l).Pairwise (fun x y => x.link ≠ y.link) := by
  induction l using List.reverseRecOn with
  | nil => simp [dedupeByLink]
  | append_singleton l a ih =>
      rw [dedupeByLink_append]
      exact updAssoc_pairwise _ a ih

theorem dedupeByLink_last_occurrence {x : Article} : ∀ {l : List Article},
    x ∈ dedupeByLink l →
    l.reverse.find? (fun b => decide (b.link = x.link)) = some x := by
  intro l
  induction l using List.reverseRecOn with
  | nil => intro h; simp [dedupeByLink] at h
  | append_singleton l a ih =>
      intro h
      rw [dedupeByLink_append] at h
      rw [List.reverse_append, List.reverse_singleton, List.singleton_append,
        List.find?_cons]
      rcases mem_updAssoc (dedupeByLink_pairwise l) h with h | h
      · rw [h]
        simp
      · have hne : (decide (a.link = x.link)) = false :=
          decide_eq_false (fun hc => h.2 hc.symm)
        rw [hne]
        exact ih h.1

/-- First of two collected entries sharing one url. -/
def artDupFirst : Article :=
  { title := "First", link := "https://example.com/dup", summary := "s1",
    published := "2026-02-18", source := "FeedA" }

/-- Second of two collected entries sharing that url, with different
fields. -/
def artDupSecond : Article :=
  { title := "Second", link := "https://example.com/dup", summary := "s2",
    published := "2026-02-18", source := "FeedB" }

/-- C5 counterexample: when two collected entries share a url, the
retained representative is not the first-seen occurrence: the dict
comprehension of src/main.py line 418 overwrites the value, so the second
entry survives (at the first occurrence's position). -/
theorem dedupe_keeps_last_not_first :
    dedupeByLink [artDupFirst, artDupSecond] = [artDupSecond] ∧
      artDupSecond ≠ artDupFirst := by
  constructor
  · rfl
  · decide

theorem firstOccOrder_append (l : List String) (u : String) :
    firstOccOrder (l ++ [u]) =
      if u ∈ firstOccOrder l then firstOccOrder l else firstOccOrder l ++ [u] := by
  unfold firstOccOrder
  rw [List.foldl_append]
  rfl

theorem dedupeByLink_first_occurrence_order : ∀ (l : List Article),
    (dedupeByLink l).map Article.link = firstOccOrder (l.map Article.link) := by
  intro l
  induction l using List.reverseRecOn with
  | nil => rfl
  | append_singleton l a ih =>
      rw [dedupeByLink_append, updAssoc_links, List.map_append,
        List.map_singleton, firstOccOrder_append, ih]

/-- C5 amended: after the ingestion-time deduplication of src/main.py line
418 no two items have equal url; when several collected entries share a
url the retained representative is the last-seen occurrence (the dict
value overwrite), placed at the first occurrence's position (urls appear
in first-occurrence order). -/
theorem dedupe_unique_urls_last_representative (l : List Article) :
    (dedupeByLink l).Pairwise (fun x y => x.link ≠ y.link)
    ∧ (∀ x ∈ dedupeByLink l,
        l.reverse.find? (fun b => decide (b.link = x.link)) = some x)
    ∧ (dedupeByLink l).map Article.link = firstOccOrder (l.map Article.link) :=
  ⟨dedupeByLink_pairwise l, fun _ hx => dedupeByLink_last_occurrence hx,
    dedupeByLink_first_occurrence_order l⟩

/-- C5 amended witness: on the two-element duplicate input the surviving
item is the last occurrence. -/
theorem dedupe_unique_urls_last_representative_witness :
    [artDupFirst, artDupSecond].reverse.find?
        (fun b => decide (b.link = artDupSecond.link)) = some artDupSecond :=
  (dedupe_unique_urls_last_representative [artDupFirst, artDupSecond]).2.1
    artDupSecond (by rw [show dedupeByLink [artDupFirst, artDupSecond] =
      [artDupSecond] from rfl]; exact List.mem_singleton.mpr rfl)

/-! ## SeenStore: the SQLite article cache (src/main.py lines 25-68).
The on-disk state is modelled as Option CacheTable: none when the
article_cache table does not exist (fresh or absent database file —
sqlite3.connect itself never fails, it creates an empty database, but any
statement touching the missing table raises OperationalError "no such
table"), some rows once init_cache has created it.  Dates are abstract
integer day counts (the YYYY-MM-DD strings compare chronologically). -/

abbrev CacheTable := List (String × Int)

/-- init_cache (src/main.py lines 25-36): CREATE TABLE IF NOT EXISTS. -/
def init_cache (s : Option CacheTable) : Option CacheTable :=
  some (s.getD [])

/-- is_cached (src/main.py lines 39-45): SELECT url FROM article_cache
WHERE url = ?; row is not None.  On a store without the table the SELECT
raises. -/
def is_cached (s : Option CacheTable) (url : String) : Except String Bool :=
  match s with
  | none => Except.error "no such table: article_cache"
  | some t => Except.ok (t.any (fun row => decide (row.1 = url)))

/-- INSERT OR IGNORE of a single url stamped with today: a no-op when the
primary key is already present. -/
def cacheInsert (today : Int) (t : CacheTable) (u : String) : CacheTable :=
  if t.any (fun row => decide (row.1 = u)) then t else t ++ [(u, today)]

/-- add_to_cache (src/main.py lines 48-58): INSERT OR IGNORE each url
stamped with today. -/
def add_to_cache (urls : List String) (today : Int) (s : Option CacheTable) :
    Except String (Option CacheTable) :=
  match s with
  | none => Except.error "no such table: article_cache"
  | some t => Except.ok (some (urls.foldl (cacheInsert today) t))

/-- purge_expired (src/main.py lines 61-68): DELETE WHERE cached_at <
today - days, i.e. keep rows with cached_at >= the cutoff. -/
def purge_expired (days : Int) (today : Int) (s : Option CacheTable) :
    Except String (Option CacheTable) :=
  match s with
  | none => Except.error "no such table: article_cache"
  | some t => Except.ok (some (t.filter (fun row => decide (today - days ≤ row.2))))

/-- C7 counterexample: on an absent/uninitialized store (no article_cache
table), is_cached raises sqlite3.OperationalError rather than returning
False: sqlite3.connect creates an empty database file and the SELECT on
the missing table fails.  The claim that absence of the store yields false
is therefore wrong. -/
theorem is_cached_errors_without_store :
    is_cached none "https://example.com/a" =
      Except.error "no such table: article_cache" ∧
    ∀ b : Bool, is_cached none "https://example.com/a" ≠ Except.ok b := by
  refine ⟨rfl, ?_⟩
  intro b h
  cases h

/-- C7 amended: once the store has been initialized (the article_cache
table exists) the membership test always returns a boolean — in
particular absence of the key yields false, never an error — and
init_cache establishes that state from any prior one; but on an
uninitialized store the test raises. -/
theorem is_cached_total_after_init (t : CacheTable) (url : String)
    (s : Option CacheTable) (habs : ∀ row ∈ t, row.1 ≠ url) :
    (∃ b : Bool, is_cached (some t) url = Except.ok b)
    ∧ is_cached (some t) url = Except.ok false
    ∧ (∃ b : Bool, is_cached (init_cache s) url = Except.ok b) := by
  refine ⟨⟨t.any (fun row => decide (row.1 = url)), rfl⟩, ?_, ?_⟩
  · have : t.any (fun row => decide (row.1 = url)) = false := by
      rw [List.any_eq_false]
      intro row hrow
      simp only [decide_eq_true_eq]
      exact habs row hrow
    show Except.ok (t.any (fun row => decide (row.1 = url))) = Except.ok false
    rw [this]
  · exact ⟨(s.getD []).any (fun row => decide (row.1 = url)), rfl⟩

/-- C7 amended witness: on an initialized one-row store, a missing key
yields ok false. -/
theorem is_cached_total_after_init_witness :
    is_cached (some [("https://example.com/a", 3)]) "https://example.com/b" =
      Except.ok false :=
  (is_cached_total_after_init [("https://example.com/a", 3)]
    "https://example.com/b" none (by decide)).2.1

/-! ## Summarization pass: summarize_articles (src/main.py lines 231-284).
The parsing of the raw response (re.split on the positional markers
"[n]", src/main.py lines 266-272) is modelled at its boundary: a batch
response is either none (the call raised) or the parsed list of
(position, stripped content) pairs in text order; building the summaries
dict makes a later pair with the same position overwrite an earlier one.
E.g. the response text "[1]" parses to [(1, "")]. -/

/-- summaries.get(j, fallback): the dict lookup where later pairs
overwrite earlier ones, hence the last matching pair wins. -/
def lookupLastPos (pairs : List (Nat × String)) (k : Nat) : Option String :=
  (pairs.reverse.find? (fun pr => decide (pr.1 = k))).map (fun pr => pr.2)

/-- The synthetic fallback bullet of src/main.py lines 275 and 280:
"• " + excerpt[:200]. -/
def fallbackBullet (a : Article) : String := "• " ++ a.summary.take 200

/-- The bullets value assigned to the batch's j-th (0-based) article when
the response parsed (src/main.py line 275). -/
def summAssigned (pairs : List (Nat × String)) (j : Nat) (a : Article) :
    Option String :=
  some ((lookupLastPos pairs (j + 1)).getD (fallbackBullet a))

/-- One batch of the summarization pass (src/main.py lines 259-280): on a
parsed response each article gets its positional block or the synthetic
bullet; on a raised call every article of the batch gets the synthetic
bullet. -/
def summBatch (resp : Option (List (Nat × String))) (batch : List Article) :
    List Article :=
  match resp with
  | some pairs =>
      batch.enum.map (fun q => { q.2 with bullets := summAssigned pairs q.1 q.2 })
  | none => batch.map (fun a => { a with bullets := some (fallbackBullet a) })

/-- summarize_articles (src/main.py lines 231-284); the topics argument
only shapes the prompt, which the oracle input already reflects. -/
def summarize_articles (oracle : Nat → Option (List (Nat × String)))
    (articles : List Article) (topics : List String) : List Article :=
  if articles.isEmpty then []
  else ((chunks5 articles).enum.map (fun p => summBatch (oracle p.1) p.2)).flatten

theorem summBatch_length (resp : Option (List (Nat × String)))
    (batch : List Article) : (summBatch resp batch).length = batch.length := by
  unfold summBatch
  cases resp <;> simp

theorem summBatch_bullets_isSome (resp : Option (List (Nat × String)))
    (batch : List Article) :
    ∀ a ∈ summBatch resp batch, a.bullets.isSome := by
  intro a ha
  unfold summBatch at ha
  cases resp with
  | none =>
      rcases List.mem_map.mp ha with ⟨b, _, hb⟩
      rw [← hb]
      rfl
  | some pairs =>
      rcases List.mem_map.mp ha with ⟨q, _, hq⟩
      rw [← hq]
      rfl

theorem summarize_length (oracle : Nat → Option (List (Nat × String)))
    (articles : List Article) (topics : List String) :
    (summarize_articles oracle articles topics).length = articles.length := by
  unfold summarize_articles
  by_cases he : articles.isEmpty
  · rw [if_pos he, List.isEmpty_iff.mp he]
  · rw [if_neg he]
    calc (((chunks5 articles).enum.map (fun p => summBatch (oracle p.1) p.2)).flatten).length
        = (((chunks5 articles).enum.map (fun p => summBatch (oracle p.1) p.2)).map
            List.length).sum := by rw [List.length_flatten]
      _ = (((chunks5 articles).enum.map (fun p => p.2)).map List.length).sum := by
            rw [List.map_map, List.map_map]
            congr 1
            refine List.map_congr_left ?_
            intro p _
            exact summBatch_length (oracle p.1) p.2
      _ = ((chunks5 articles).map List.length).sum := by
            rw [List.enum_map_snd]
      _ = ((chunks5 articles).flatten).length := (List.length_flatten _).symm
      _ = articles.length := by rw [chunks5_flatten]

/-- C8 amended: after the summarization pass every input item has a
summaryBullets value (the output has one item per input, each with bullets
set); an item whose position is missing from the parsed output receives
the synthetic bullet, as does every item of a batch whose call raised; the
synthetic bullet "• " + excerpt[:200] is never empty.  (An item whose
positional marker is present with an empty block receives the empty
string, which is why the original non-emptiness claim fails.) -/
theorem summarize_always_assigns_bullets
    (oracle : Nat → Option (List (Nat × String))) (articles : List Article)
    (topics : List String) :
    (summarize_articles oracle articles topics).length = articles.length
    ∧ (∀ a ∈ summarize_articles oracle articles topics, a.bullets.isSome)
    ∧ (∀ (pairs : List (Nat × String)) (j : Nat) (a : Article),
        lookupLastPos pairs (j + 1) = none →
          summAssigned pairs j a = some (fallbackBullet a))
    ∧ (∀ batch : List Article, summBatch none batch =
        batch.map (fun a => { a with bullets := some (fallbackBullet a) }))
    ∧ (∀ a : Article, fallbackBullet a ≠ "") := by
  refine ⟨summarize_length oracle articles topics, ?_, ?_, fun _ => rfl, ?_⟩
  · intro a ha
    unfold summarize_articles at ha
    by_cases he : articles.isEmpty
    · rw [if_pos he] at ha
      cases ha
    · rw [if_neg he] at ha
      rcases List.mem_flatten.mp ha with ⟨b, hb, hab⟩
      rcases List.mem_map.mp hb with ⟨p, _, hp⟩
      rw [← hp] at hab
      exact summBatch_bullets_isSome (oracle p.1) p.2 a hab
  · intro pairs j a h
    unfold summAssigned
    rw [h]
    rfl
  · intro a h
    unfold fallbackBullet at h
    have hlen := congrArg String.length h
    rw [String.length_append] at hlen
    have h2 : ("• " : String).length = 2 := rfl
    have h0 : ("" : String).length = 0 := rfl
    omega

/-- C8 amended witness: on a failed batch the single article receives the
synthetic bullet (bullets set) and the length is preserved. -/
theorem summarize_always_assigns_bullets_witness :
    (summarize_articles (fun _ => none) [artAlpha] ["ai"]).length = 1 ∧
      summAssigned [] 0 artAlpha = some (fallbackBullet artAlpha) ∧
      ({ artAlpha with bullets := some (fallbackBullet artAlpha) } :
        Article).bullets.isSome := by
  refine ⟨?_, ?_, ?_⟩
  · exact (summarize_always_assigns_bullets (fun _ => none) [artAlpha] ["ai"]).1
  · exact (summarize_always_assigns_bullets (fun _ => none) [artAlpha]
      ["ai"]).2.2.1 [] 0 artAlpha rfl
  · exact (summarize_always_assigns_bullets (fun _ => none) [artAlpha]
      ["ai"]).2.1 { artAlpha with bullets := some (fallbackBullet artAlpha) }
      (by rw [show summarize_articles (fun _ => none) [artAlpha] ["ai"] =
        [{ artAlpha with bullets := some (fallbackBullet artAlpha) }] from rfl]
          exact List.mem_singleton.mpr rfl)

/-- C8 counterexample: the oracle response text "[1]" parses (via
re.split on the positional markers, src/main.py lines 267-272) to the pair
list [(1, "")], the marker is present with an empty block, and the item's
summaryBullets ends up the empty string — not non-empty as claimed. -/
theorem summarize_can_assign_empty_bullets :
    (summarize_articles (fun _ => some [(1, "")]) [artAlpha] ["ai"]).map
        (fun a => a.bullets) = [some ""] := by
  rfl

/-! ## Sentiment pass: analyze_sentiment (src/main.py lines 287-334). -/

/-- One element of the JSON array parsed in analyze_sentiment (src/main.py
line 319): result.get("id", 0) and result.get("sentiment", "Neutral")
have these Option defaults. -/
structure SentResult where
  id : Option Int := none
  sentiment : Option String := none
deriving DecidableEq, Repr

/-- Normalization of src/main.py lines 323-325: default "Neutral" for a
missing field, and any value outside the three enumerated ones becomes
"Neutral". -/
def normSent (r : SentResult) : String :=
  let s := r.sentiment.getD "Neutral"
  if s = "Positive" ∨ s = "Negative" ∨ s = "Neutral" then s else "Neutral"

/-- One step of the result loop of src/main.py lines 320-326: an in-range
1-based id sets that article's sentiment, anything else is ignored. -/
def sentStep (b : List Article) (r : SentResult) : List Article :=
  let idx : Int := r.id.getD 0 - 1
  if 0 ≤ idx ∧ idx < (b.length : Int) then
    b.set idx.toNat
      { b.getD idx.toNat defaultArticle with sentiment := some (normSent r) }
  else b

/-- One batch of the sentiment pass: on a parsed response the results are
applied in order; on a raised call every article defaults to Neutral
without overwriting an already-set sentiment
(article.setdefault("sentiment", "Neutral"), src/main.py lines 327-330). -/
def sentBatch (resp : Option (List SentResult)) (batch : List Article) :
    List Article :=
  match resp with
  | some results => results.foldl sentStep batch
  | none => batch.map (fun a =>
      if a.sentiment.isSome then a else { a with sentiment := some "Neutral" })

/-- analyze_sentiment (src/main.py lines 287-334). -/
def analyze_sentiment (oracle : Nat → Option (List SentResult))
    (articles : List Article) : List Article :=
  if articles.isEmpty then []
  else ((chunks5 articles).enum.map (fun p => sentBatch (oracle p.1) p.2)).flatten

/-- The three enumerated sentiment values. -/
def validSentiment (s : Option String) : Prop :=
  s = some "Positive" ∨ s = some "Negative" ∨ s = some "Neutral"

theorem normSent_valid (r : SentResult) : validSentiment (some (normSent r)) := by
  unfold normSent validSentiment
  by_cases h : r.sentiment.getD "Neutral" = "Positive" ∨
      r.sentiment.getD "Neutral" = "Negative" ∨
      r.sentiment.getD "Neutral" = "Neutral"
  · rw [if_pos h]
    rcases h with h | h | h
    · exact Or.inl (by rw [h])
    · exact Or.inr (Or.inl (by rw [h]))
    · exact Or.inr (Or.inr (by rw [h]))
  · rw [if_neg h]
    exact Or.inr (Or.inr rfl)

theorem sentStep_cases (b : List Article) (r : SentResult) :
    ∀ a ∈ sentStep b r, a ∈ b ∨ a.sentiment = some (normSent r) := by
  intro a ha
  simp only [sentStep] at ha
  split at ha
  · rcases List.mem_or_eq_of_mem_set ha with h | h
    · exact Or.inl h
    · exact Or.inr (by rw [h])
  · exact Or.inl ha

theorem sentFold_cases (results : List SentResult) :
    ∀ (b : List Article) (a : Article), a ∈ results.foldl sentStep b →
      a ∈ b ∨ ∃ r ∈ results, a.sentiment = some (normSent r) := by
  induction results with
  | nil => intro b a ha; exact Or.inl ha
  | cons r rs ih =>
      intro b a ha
      rw [List.foldl_cons] at ha
      rcases ih (sentStep b r) a ha with h | h
      · rcases sentStep_cases b r a h with h | h
        · exact Or.inl h
        · exact Or.inr ⟨r, List.mem_cons_self r rs, h⟩
      · rcases h with ⟨r', hr', h⟩
        exact Or.inr ⟨r', List.mem_cons_of_mem r hr', h⟩

theorem sentBatch_cases (resp : Option (List SentResult))
    (batch : List Article) :
    ∀ a ∈ sentBatch resp batch,
      (∃ b ∈ batch, a.sentiment = b.sentiment) ∨ validSentiment a.sentiment := by
  intro a ha
  unfold sentBatch at ha
  cases resp with
  | none =>
      rcases List.mem_map.mp ha with ⟨b, hb, hba⟩
      by_cases hs : b.sentiment.isSome
      · rw [if_pos hs] at hba
        exact Or.inl ⟨b, hb, by rw [← hba]⟩
      · rw [if_neg hs] at hba
        refine Or.inr ?_
        rw [← hba]
        exact Or.inr (Or.inr rfl)
  | some results =>
      rcases sentFold_cases results batch a ha with h | h
      · exact Or.inl ⟨a, h, rfl⟩
      · rcases h with ⟨r, _, h⟩
        rw [h]
        exact Or.inr (normSent_valid r)

/-- C9 counterexample: the oracle response text "[]" parses to an empty
array (src/main.py lines 317-319), so no id is applied, the success path
has no setdefault, and the article ends the pass with no sentiment at all
— not Neutral as the claim's "a missing id is normalized to Neutral"
requires. -/
theorem sentiment_missing_id_left_unset :
    (analyze_sentiment (fun _ => some []) [artAlpha]).map
        (fun a => a.sentiment) = [none] ∧
      ¬ validSentiment ((analyze_sentiment (fun _ => some [])
        [artAlpha]).getD 0 defaultArticle).sentiment := by
  constructor
  · rfl
  · intro h
    rcases h with h | h | h <;> cases h

/-- C9 amended: every sentiment the pass assigns is one of Positive,
Negative, Neutral — a parsed value outside the three (or a missing field)
is normalized to Neutral for its in-range id, and on a raised call every
item of the batch defaults to Neutral without overwriting an already-set
sentiment; but an id missing from a successfully parsed response leaves
that item's sentiment untouched (possibly unset), so after the pass every
item either carries one of the three values or still carries some input
item's sentiment value. -/
theorem sentiment_assigned_values_are_valid
    (oracle : Nat → Option (List SentResult)) (articles : List Article) :
    (∀ a ∈ analyze_sentiment oracle articles,
      (∃ b ∈ articles, a.sentiment = b.sentiment) ∨ validSentiment a.sentiment)
    ∧ (∀ r : SentResult, validSentiment (some (normSent r)))
    ∧ (∀ batch : List Article, sentBatch none batch = batch.map (fun a =>
        if a.sentiment.isSome then a else { a with sentiment := some "Neutral" }))
    ∧ (∀ a ∈ sentBatch none articles, a.sentiment.isSome) := by
  refine ⟨?_, normSent_valid, fun _ => rfl, ?_⟩
  · intro a ha
    unfold analyze_sentiment at ha
    by_cases he : articles.isEmpty
    · rw [if_pos he] at ha
      cases ha
    · rw [if_neg he] at ha
      rcases List.mem_flatten.mp ha with ⟨b, hb, hab⟩
      rcases List.mem_map.mp hb with ⟨p, hp, hpb⟩
      rw [← hpb] at hab
      rcases sentBatch_cases (oracle p.1) p.2 a hab with ⟨b', hb', h⟩ | h
      · refine Or.inl ⟨b', ?_, h⟩
        have hmem : p.2 ∈ chunks5 articles :=
          List.getElem?_mem (List.mem_enum_iff_getElem?.mp hp)
        have hsub : p.2.Sublist articles := by
          rw [← chunks5_flatten articles]
          exact List.sublist_flatten_of_mem hmem
        exact hsub.mem hb'
      · exact Or.inr h
  · intro a ha
    unfold sentBatch at ha
    rcases List.mem_map.mp ha with ⟨b, _, hba⟩
    by_cases hs : b.sentiment.isSome
    · rw [if_pos hs] at hba
      rw [← hba]
      exact hs
    · rw [if_neg hs] at hba
      rw [← hba]
      rfl

/-- A batch response claiming a sentiment value outside the enumerated
three for the first article. -/
def sentOracleBogus : Nat → Option (List SentResult) :=
  fun _ => some [{ id := some 1, sentiment := some "Excited" }]

/-- C9 amended witness: the out-of-enumeration value "Excited" is
normalized to Neutral for the targeted article, and on a raised call the
batch's article ends with a sentiment set. -/
theorem sentiment_assigned_values_are_valid_witness :
    ((∃ b ∈ [artAlpha],
        ({ artAlpha with sentiment := some "Neutral" } : Article).sentiment =
          b.sentiment) ∨
      validSentiment ({ artAlpha with sentiment := some "Neutral" } :
        Article).sentiment)
    ∧ ({ artAlpha with sentiment := some "Neutral" } : Article).sentiment.isSome := by
  constructor
  · exact (sentiment_assigned_values_are_valid sentOracleBogus [artAlpha]).1
      { artAlpha with sentiment := some "Neutral" }
      (by rw [show analyze_sentiment sentOracleBogus [artAlpha] =
          [{ artAlpha with sentiment := some "Neutral" }] from rfl]
          exact List.mem_singleton.mpr rfl)
  · exact (sentiment_assigned_values_are_valid (fun _ => none) [artAlpha]).2.2.2
      { artAlpha with sentiment := some "Neutral" }
      (by rw [show sentBatch none [artAlpha] =
          [{ artAlpha with sentiment := some "Neutral" }] from rfl]
          exact List.mem_singleton.mpr rfl)

/-! ## Configuration, recipient groups and orchestration
(src/main.py lines 109-145 and 408-479). -/

/-- One entry of config["users"]: resolve_users reads only its "name" and
"topics" keys (src/main.py lines 134-138). -/
structure UserCfg where
  name : String
  topics : List String
deriving DecidableEq, Repr

/-- A resolved recipient group (src/main.py lines 127-145). -/
structure UserG where
  name : String
  emails : List String
  topics : List String
deriving DecidableEq, Repr

/-- The configuration surface main() consumes; each Option is none when
the corresponding key is absent, mirroring dict .get defaults. -/
structure ConfigM where
  feeds : Option (List String) := none
  users : Option (List UserCfg) := none
  topics : Option (List String) := none
  expiry_days : Option Int := none
  lookback_hours : Option Int := none
  scraping_enabled : Option Bool := none
  scraping_max_chars : Option Nat := none
  sentiment_enabled : Option Bool := none
deriving Repr

/-- validate_config (src/main.py lines 109-114): feeds falsy (absent or
empty) is fatal; so is having neither a users nor a topics key. -/
def validate_config (cfg : ConfigM) : Except String Unit :=
  if (cfg.feeds.getD []).isEmpty then
    Except.error "Config error: feeds key is missing or empty"
  else if cfg.users.isNone && cfg.topics.isNone then
    Except.error "Config error: must have either users or topics key"
  else Except.ok ()

/-- group_name_to_env_key (src/main.py lines 117-124):
re.sub applied to name.upper(), then + "_EMAILS". -/
def group_name_to_env_key (name : String) : String :=
  (name.toUpper.map (fun c =>
    if ('A' ≤ c && c ≤ 'Z') || ('0' ≤ c && c ≤ '9') then c else '_')) ++ "_EMAILS"

/-- Recipient-string parsing (src/main.py lines 137 and 143):
re.split on comma/semicolon, strip, drop empties. -/
def splitAddrs (s : String) : List String :=
  ((s.split (fun c => c == ',' || c == ';')).map String.trim).filter
    (fun x => decide (x ≠ ""))

/-- resolve_users (src/main.py lines 127-145): multi-user mode reads each
group's emails from the environment; the single-user fallback builds one
Default group from config["topics"] (a KeyError if that key is absent,
which validate_config has ruled out along this path) and GMAIL_TO. -/
def resolve_users (cfg : ConfigM) (getenv : String → String) :
    Except String (List UserG) :=
  match cfg.users with
  | some us => Except.ok (us.map (fun u =>
      { name := u.name,
        emails := splitAddrs (getenv (group_name_to_env_key u.name)),
        topics := u.topics }))
  | none =>
      match cfg.topics with
      | some ts => Except.ok
          [{ name := "Default", emails := splitAddrs (getenv "GMAIL_TO"),
             topics := ts }]
      | none => Except.error "KeyError: topics"

/-- scrape_article (src/main.py lines 71-95): the network fetch and
paragraph extraction are the collaborator input extract (none when the
request or parsing raises); empty extracted text yields None, otherwise
the text truncated to max_chars. -/
def scrape_article (extract : String → Option String) (url : String)
    (maxChars : Nat) : Option String :=
  match extract url with
  | none => none
  | some t => if t = "" then none else some (t.take maxChars)

/-- In-place mutation of a shared article dict, modelled by value: the
fresh pool's links are pairwise distinct, so replacing the article with
the matching link is exactly the aliasing of the Python object. -/
def updateByLink (pool : List Article) (a : Article) : List Article :=
  pool.map (fun b => if b.link = a.link then a else b)

/-- Write a list of mutated articles back into the shared pool. -/
def writeBack (pool : List Article) (upd : List Article) : List Article :=
  upd.foldl updateByLink pool

/-- Re-read a list of shared articles from the pool (dereference the
aliases after mutations elsewhere). -/
def refreshRel (pool : List Article) (rel : List Article) : List Article :=
  rel.map (fun a =>
    (pool.find? (fun b => decide (b.link = a.link))).getD a)

/-- The scraping loop of src/main.py lines 441-455: each not-yet-scraped
relevant article is fetched once; a successful scrape replaces its
summary; the scraped flag is set either way. -/
def scrapeLoop (extract : String → Option String) (maxChars : Nat)
    (pool : List Article) (rel : List Article) : List Article :=
  rel.foldl (fun pool a =>
    let cur := (pool.find? (fun b => decide (b.link = a.link))).getD a
    if cur.scraped then pool
    else
      let res := scrape_article extract cur.link maxChars
      updateByLink pool
        { cur with summary := res.getD cur.summary, scraped := true })
    pool

/-- The observable events of one run of main(). -/
inductive Event where
  | skipped : String → Event
  | sent : String → Event
  | sendFailed : String → Event
  | cacheCommit : List String → Event
deriving DecidableEq, Repr

/-- Whether an event is the SeenStore commit. -/
def isCommit : Event → Bool
  | Event.cacheCommit _ => true
  | _ => false

/-- The collaborator behaviours and ambient state main() consumes.  The
three oracles are indexed by group then batch (one fixed run's responses);
sendOk tells whether the group's SMTP delivery succeeds (src/main.py
lines 464-474 catch a failure per group). -/
structure EnvM where
  getenv : String → String
  fetchFeed : String → Option Feed
  extract : String → Option String
  relOracle : Nat → Nat → Option (List RelResult)
  sumOracle : Nat → Nat → Option (List (Nat × String))
  sentOracle : Nat → Nat → Option (List SentResult)
  sendOk : Nat → Bool
  nowHours : Int
  today : Int

/-- One iteration of the per-user loop of src/main.py lines 430-474:
skip groups without recipients; otherwise relevance-filter the shared
fresh pool, optionally scrape (writing the mutations back into the shared
pool), summarize, optionally run sentiment, and attempt delivery
(compile_digest is pure formatting and contributes no state). -/
def groupStep (cfg : ConfigM) (env : EnvM) (gi : Nat) (pool : List Article)
    (g : UserG) : List Article × Event :=
  if String.intercalate "," g.emails = "" then (pool, Event.skipped g.name)
  else
    let fr := filter_relevant_articles (env.relOracle gi) pool g.topics
    let pool1 := fr.1
    let rel := fr.2
    let pool2 := if cfg.scraping_enabled.getD true then
        scrapeLoop env.extract (cfg.scraping_max_chars.getD 2000) pool1 rel
      else pool1
    let rel2 := refreshRel pool2 rel
    let summ := summarize_articles (env.sumOracle gi) rel2 g.topics
    let pool3 := writeBack pool2 summ
    let summ2 := refreshRel pool3 summ
    let pool4 := if cfg.sentiment_enabled.getD true then
        writeBack pool3 (analyze_sentiment (env.sentOracle gi) summ2)
      else pool3
    (pool4, if env.sendOk gi then Event.sent g.name else Event.sendFailed g.name)

/-- The per-user loop, threading the shared fresh pool and collecting one
event per group. -/
def processGroups (cfg : ConfigM) (env : EnvM) :
    Nat → List Article → List UserG → List Article × List Event
  | _, pool, [] => (pool, [])
  | gi, pool, g :: rest =>
      let st := groupStep cfg env gi pool g
      let next := processGroups cfg env (gi + 1) st.1 rest
      (next.1, st.2 :: next.2)

/-- fresh = [a for a in articles if not is_cached(a["link"])]
(src/main.py line 421), with a storage error propagating. -/
def filterNotCached (store : Option CacheTable) :
    List Article → Except String (List Article)
  | [] => Except.ok []
  | a :: rest =>
      match is_cached store a.link with
      | Except.error e => Except.error e
      | Except.ok b =>
          match filterNotCached store rest with
          | Except.error e => Except.error e
          | Except.ok tail => Except.ok (if b then tail else a :: tail)

/-- The final state of a run: the cache, the event trace in order, and
the shared article pool after all groups' mutations. -/
structure RunState where
  store : Option CacheTable
  trace : List Event
  pool : List Article

/-- main() (src/main.py lines 408-479): validate, init and purge the
cache, fetch and deduplicate, partition into fresh, resolve groups, run
the per-group loop, and finally commit every fresh url to the cache
exactly once.  Uncaught exceptions (config validation, storage errors,
the missing-topics KeyError) propagate as Except.error. -/
def mainM (cfg : ConfigM) (env : EnvM) (store0 : Option CacheTable) :
    Except String RunState :=
  match validate_config cfg with
  | Except.error e => Except.error e
  | Except.ok _ =>
      let store1 := init_cache store0
      match purge_expired (cfg.expiry_days.getD 7) env.today store1 with
      | Except.error e => Except.error e
      | Except.ok store2 =>
          let articles := fetch_articles
            ((cfg.feeds.getD []).map (fun u => (u, env.fetchFeed u)))
            (cfg.lookback_hours.getD 24) env.nowHours
          let deduped := dedupeByLink articles
          match filterNotCached store2 deduped with
          | Except.error e => Except.error e
          | Except.ok fresh =>
              match resolve_users cfg env.getenv with
              | Except.error e => Except.error e
              | Except.ok users =>
                  let pg := processGroups cfg env 0 fresh users
                  match add_to_cache (fresh.map (fun a => a.link)) env.today
                      store2 with
                  | Except.error e => Except.error e
                  | Except.ok store3 =>
                      Except.ok
                        { store := store3,
                          trace := pg.2 ++
                            [Event.cacheCommit (fresh.map (fun a => a.link))],
                          pool := pg.1 }

/-- The cache table after init_cache and purge_expired, spelled out. -/
def purgedTableOf (cfg : ConfigM) (env : EnvM) (store0 : Option CacheTable) :
    CacheTable :=
  (store0.getD []).filter
    (fun row => decide (env.today - cfg.expiry_days.getD 7 ≤ row.2))

/-- The deduplicated candidate item set of the run
(src/main.py lines 417-418). -/
def fetchedOf (cfg : ConfigM) (env : EnvM) : List Article :=
  dedupeByLink (fetch_articles
    ((cfg.feeds.getD []).map (fun u => (u, env.fetchFeed u)))
    (cfg.lookback_hours.getD 24) env.nowHours)

/-- The set of items fresh at the start of the run: candidates whose url
is not in the (purged) SeenStore (src/main.py line 421). -/
def freshOf (cfg : ConfigM) (env : EnvM) (store0 : Option CacheTable) :
    List Article :=
  (fetchedOf cfg env).filter
    (fun a => !((purgedTableOf cfg env store0).any
      (fun row => decide (row.1 = a.link))))

/-- The event each group produces, read off its recipients and delivery
outcome (the loop body's event does not depend on the article pool). -/
def eventsFor (env : EnvM) : Nat → List UserG → List Event
  | _, [] => []
  | gi, g :: rest =>
      (if String.intercalate "," g.emails = "" then Event.skipped g.name
       else if env.sendOk gi then Event.sent g.name
       else Event.sendFailed g.name) :: eventsFor env (gi + 1) rest

theorem filterNotCached_some (t : CacheTable) : ∀ l : List Article,
    filterNotCached (some t) l = Except.ok
      (l.filter (fun a => !(t.any (fun row => decide (row.1 = a.link)))))
  | [] => rfl
  | a :: rest => by
      show (match filterNotCached (some t) rest with
        | Except.error e => Except.error e
        | Except.ok tail => Except.ok
            (if t.any (fun row => decide (row.1 = a.link)) then tail
             else a :: tail)) = _
      rw [filterNotCached_some t rest]
      rw [List.filter_cons]
      cases h : t.any (fun row => decide (row.1 = a.link)) <;> simp [h]

theorem groupStep_event (cfg : ConfigM) (env : EnvM) (gi : Nat)
    (pool : List Article) (g : UserG) :
    (groupStep cfg env gi pool g).2 =
      (if String.intercalate "," g.emails = "" then Event.skipped g.name
       else if env.sendOk gi then Event.sent g.name
       else Event.sendFailed g.name) := by
  unfold groupStep
  by_cases hc : String.intercalate "," g.emails = ""
  · rw [if_pos hc, if_pos hc]
  · rw [if_neg hc, if_neg hc]

theorem processGroups_events (cfg : ConfigM) (env : EnvM) :
    ∀ (us : List UserG) (gi : Nat) (pool : List Article),
      (processGroups cfg env gi pool us).2 = eventsFor env gi us
  | [], _, _ => rfl
  | g :: rest, gi, pool => by
      show (groupStep cfg env gi pool g).2 ::
          (processGroups cfg env (gi + 1) (groupStep cfg env gi pool g).1 rest).2 =
        _
      rw [groupStep_event, processGroups_events cfg env rest (gi + 1)]
      rfl

theorem eventsFor_no_commit (env : EnvM) : ∀ (us : List UserG) (gi : Nat),
    ∀ e ∈ eventsFor env gi us, isCommit e = false
  | [], _ => by intro e he; cases he
  | g :: rest, gi => by
      intro e he
      rcases List.mem_cons.mp he with h | h
      · rw [h]
        by_cases hc : String.intercalate "," g.emails = ""
        · rw [if_pos hc]; rfl
        · rw [if_neg hc]
          by_cases hs : env.sendOk gi = true
          · rw [if_pos hs]; rfl
          · rw [if_neg hs]; rfl
      · exact eventsFor_no_commit env rest (gi + 1) e h

theorem cacheInsert_preserves (today : Int) (t : CacheTable) (u v : String)
    (h : t.any (fun row => decide (row.1 = u)) = true) :
    (cacheInsert today t v).any (fun row => decide (row.1 = u)) = true := by
  unfold cacheInsert
  split
  · exact h
  · rw [List.any_append]
    rw [h]
    rfl

theorem cacheFold_preserves (today : Int) : ∀ (urls : List String)
    (t : CacheTable) (u : String),
    t.any (fun row => decide (row.1 = u)) = true →
    (urls.foldl (cacheInsert today) t).any (fun row => decide (row.1 = u)) = true
  | [], _, _, h => h
  | v :: rest, t, u, h => by
      rw [List.foldl_cons]
      exact cacheFold_preserves today rest _ u (cacheInsert_preserves today t u v h)

theorem cacheInsert_mem (today : Int) (t : CacheTable) (u : String) :
    (cacheInsert today t u).any (fun row => decide (row.1 = u)) = true := by
  unfold cacheInsert
  cases h : t.any (fun row => decide (row.1 = u))
  · rw [if_neg Bool.false_ne_true]
    simp [List.any_append]
  · rw [if_pos rfl]
    exact h

theorem cacheFold_mem (today : Int) : ∀ (urls : List String) (t : CacheTable)
    (u : String), u ∈ urls →
    (urls.foldl (cacheInsert today) t).any (fun row => decide (row.1 = u)) = true
  | v :: rest, t, u, h => by
      rw [List.foldl_cons]
      rcases List.mem_cons.mp h with h | h
      · exact cacheFold_preserves today rest _ u (h ▸ cacheInsert_mem today t u)
      · exact cacheFold_mem today rest _ u h

/-- C4: in every run whose configuration validates (a run that is not
aborted before the group loop), main() succeeds, the trace consists of one
event per resolved recipient group followed by a single SeenStore commit
whose argument is the url of every item fresh at run start (not only items
that passed some group's filter), the commit is the only one in the run,
and afterwards every fresh url is present in the store. -/
theorem orchestrator_commits_fresh_once (cfg : ConfigM) (env : EnvM)
    (store0 : Option CacheTable) (h : validate_config cfg = Except.ok ()) :
    ∃ (us : List UserG) (r : RunState),
      resolve_users cfg env.getenv = Except.ok us ∧
      mainM cfg env store0 = Except.ok r ∧
      r.trace = eventsFor env 0 us ++
        [Event.cacheCommit ((freshOf cfg env store0).map (fun a => a.link))] ∧
      r.trace.countP (fun e => isCommit e) = 1 ∧
      ∃ t : CacheTable, r.store = some t ∧
        ∀ u ∈ (freshOf cfg env store0).map (fun a => a.link),
          t.any (fun row => decide (row.1 = u)) = true := by
  have hres : ∃ us, resolve_users cfg env.getenv = Except.ok us := by
    unfold resolve_users
    cases hu : cfg.users with
    | some us => exact ⟨_, rfl⟩
    | none =>
        cases ht : cfg.topics with
        | some ts => exact ⟨_, rfl⟩
        | none =>
            exfalso
            unfold validate_config at h
            by_cases hf : (cfg.feeds.getD []).isEmpty
            · rw [if_pos hf] at h
              cases h
            · rw [if_neg hf, hu, ht] at h
              simp at h
  obtain ⟨us, hus⟩ := hres
  have hfnc := filterNotCached_some (purgedTableOf cfg env store0)
    (fetchedOf cfg env)
  have hmain : mainM cfg env store0 = Except.ok
      { store := some (((freshOf cfg env store0).map (fun a => a.link)).foldl
          (cacheInsert env.today) (purgedTableOf cfg env store0)),
        trace := (processGroups cfg env 0 (freshOf cfg env store0) us).2 ++
          [Event.cacheCommit ((freshOf cfg env store0).map (fun a => a.link))],
        pool := (processGroups cfg env 0 (freshOf cfg env store0) us).1 } := by
    unfold mainM
    rw [h]
    simp only [init_cache, purge_expired]
    rw [show filterNotCached
        (some ((store0.getD []).filter
          (fun row => decide (env.today - cfg.expiry_days.getD 7 ≤ row.2))))
        (dedupeByLink (fetch_articles
          ((cfg.feeds.getD []).map (fun u => (u, env.fetchFeed u)))
          (cfg.lookback_hours.getD 24) env.nowHours)) =
      Except.ok (freshOf cfg env store0) from hfnc]
    rw [hus]
    simp only [add_to_cache]
    rfl
  refine ⟨us, _, hus, hmain, ?_, ?_, ?_⟩
  · show (processGroups cfg env 0 (freshOf cfg env store0) us).2 ++ _ = _
    rw [processGroups_events cfg env us 0 (freshOf cfg env store0)]
  · show ((processGroups cfg env 0 (freshOf cfg env store0) us).2 ++
        [Event.cacheCommit ((freshOf cfg env store0).map (fun a => a.link))]).countP
        (fun e => isCommit e) = 1
    rw [List.countP_append]
    have h0 : (processGroups cfg env 0 (freshOf cfg env store0) us).2.countP
        (fun e => isCommit e) = 0 := by
      rw [List.countP_eq_zero]
      intro e he
      rw [processGroups_events cfg env us 0 (freshOf cfg env store0)] at he
      rw [eventsFor_no_commit env us 0 e he]
      exact Bool.false_ne_true
    rw [h0]
    rfl
  · refine ⟨_, rfl, ?_⟩
    intro u hu
    exact cacheFold_mem env.today _ _ u hu

/-- A concrete valid configuration with one recipient group. -/
def cfgW : ConfigM :=
  { feeds := some ["https://feed"],
    users := some [{ name := "Team", topics := ["ai"] }],
    expiry_days := some 7, lookback_hours := some 24,
    scraping_enabled := some false, scraping_max_chars := some 2000,
    sentiment_enabled := some true }

/-- A concrete collaborator environment: one feed with one entry, a
relevance oracle admitting it, a failing summarizer and an empty-array
sentiment response, successful delivery. -/
def envW : EnvM :=
  { getenv := fun _ => "a@example.com",
    fetchFeed := fun _ => some feedFuture,
    extract := fun _ => none,
    relOracle := fun _ _ =>
      some [{ id := some 1, score := some 9, relevant := some true }],
    sumOracle := fun _ _ => none,
    sentOracle := fun _ _ => some [],
    sendOk := fun _ => true,
    nowHours := 100, today := 50 }

/-- C4 witness: the concrete run validates and commits its fresh urls
exactly once after its single group is attempted. -/
theorem orchestrator_commits_fresh_once_witness :
    validate_config cfgW = Except.ok () ∧
    ∃ (us : List UserG) (r : RunState),
      resolve_users cfgW envW.getenv = Except.ok us ∧
      mainM cfgW envW none = Except.ok r ∧
      r.trace = eventsFor envW 0 us ++
        [Event.cacheCommit ((freshOf cfgW envW none).map (fun a => a.link))] ∧
      r.trace.countP (fun e => isCommit e) = 1 ∧
      ∃ t : CacheTable, r.store = some t ∧
        ∀ u ∈ (freshOf cfgW envW none).map (fun a => a.link),
          t.any (fun row => decide (row.1 = u)) = true :=
  ⟨rfl, orchestrator_commits_fresh_once cfgW envW none rfl⟩

end RssDigest
